import Mathlib

/-!
Verification of the value-diff analysis pass (`taichi/analysis/value_diff.cpp`).

The pass contains two independent single-query visitors over the IR graph:
`ValueDiffLoopIndex` (loop-relative affine range facts) and
`FindDirectValueBaseAndOffset` (base + constant-offset decomposition), plus
the two entry points `value_diff_loop_index` and `value_diff_ptr_index`.

Modelling conventions:
- IR nodes are a tree whose constructors carry the C++ `instance_id`; node
  identity (pointer equality in C++) is id equality.  A DAG with a shared
  subexpression is a tree in which the same subtree (same id) occurs twice.
- C++ `int` arithmetic is modelled as unbounded `Int` (signed overflow is
  undefined behaviour in the source, so the defined executions coincide).
- A fatal `TI_ASSERT` failure, an out-of-bounds `val[lane]` access, and a
  `val_int()` call on a non-integer constant are modelled as `none`.
- The per-traversal `std::map<int, DiffRange> results` is an association
  list; `results[k] = v` prepends, and reads take the first binding
  (defaulting to `DiffRange()` on a miss, as `std::map::operator[]` does).
- The visitor additionally returns the list of instance ids of the visits
  it executed, in execution order; this trace is pure instrumentation of
  the `accept`/`visit` control flow and does not influence any result.
-/

/-- Primitive scalar types of constants, as far as this pass inspects them:
`is_primitive(PrimitiveTypeID::i32)` distinguishes `i32`; `val_int()` is
defined on the integer types and fatal on others. -/
inductive DataType where
  | i32
  | i64
  | f32
deriving DecidableEq, Repr

/-- One lane of a `TypedConstant` vector: its type tag and its value. -/
structure TypedVal where
  dt : DataType
  val : Int
deriving DecidableEq, Repr

/-- `TypedConstant::val_int()`: the value for integer types, fatal otherwise. -/
def TypedVal.val_int (tv : TypedVal) : Option Int :=
  match tv.dt with
  | DataType.i32 => some tv.val
  | DataType.i64 => some tv.val
  | DataType.f32 => none

/-- The binary operators this pass distinguishes: `add`, `sub`, and everything
else (`mul` spelled out as one representative of the unsupported operators). -/
inductive BinOp where
  | add
  | sub
  | mul
  | otherOp
deriving DecidableEq, Repr

/-- `OffloadedStmt::TaskType`, as far as this pass inspects it. -/
inductive TaskType where
  | serial
  | range_for
  | struct_for
  | otherTask
deriving DecidableEq, Repr

/-- IR statements consumed by this pass.  Each constructor carries the node's
`instance_id`.  `loopIndex` carries its defining loop statement (the C++
`LoopIndexStmt::loop` pointer); `rangeFor` carries its `begin`/`end` operand
statements and the `reversed` flag; constructors of every other statement
kind that the pass treats by the default visitor are collapsed into
`otherStmt`. -/
inductive Stmt where
  | const (id : Nat) (vals : List TypedVal)
  | loopIndex (id : Nat) (loop : Stmt) (index : Int)
  | globalLoad (id : Nat)
  | elementShuffle (id : Nat) (src : Stmt) (srcIndex : Nat)
  | rangeAssumption (id : Nat) (base : Stmt) (low : Int) (high : Int)
  | binaryOp (id : Nat) (op : BinOp) (lhs : Stmt) (rhs : Stmt)
  | rangeFor (id : Nat) (begin_ : Stmt) (end_ : Stmt) (reversed : Bool)
  | structFor (id : Nat)
  | offloaded (id : Nat) (task : TaskType)
  | otherStmt (id : Nat)

/-- The node's `instance_id`. -/
def Stmt.id : Stmt → Nat
  | .const i _ => i
  | .loopIndex i _ _ => i
  | .globalLoad i => i
  | .elementShuffle i _ _ => i
  | .rangeAssumption i _ _ _ => i
  | .binaryOp i _ _ _ => i
  | .rangeFor i _ _ _ => i
  | .structFor i => i
  | .offloaded i _ => i
  | .otherStmt i => i

/-- `stmt->width()`: the number of lanes of the statement's value.  A
constant's width is its number of lanes; an element shuffle selects a single
lane (the pass asserts width 1 on the shuffles it visits, so shuffles are
modelled with exactly one element); binary operations and range assumptions
have the width of their operand; the remaining kinds are scalar. -/
def Stmt.width : Stmt → Nat
  | .const _ vals => vals.length
  | .elementShuffle _ _ _ => 1
  | .binaryOp _ _ l _ => l.width
  | .rangeAssumption _ b _ _ => b.width
  | _ => 1

/-- `stmt->is<ConstStmt>()`. -/
def Stmt.isConst : Stmt → Bool
  | .const _ _ => true
  | _ => false

/-- `stmt->is<StructForStmt>()`. -/
def Stmt.isStructFor : Stmt → Bool
  | .structFor _ => true
  | _ => false

/-- `stmt->is<OffloadedStmt>()`. -/
def Stmt.isOffloaded : Stmt → Bool
  | .offloaded _ _ => true
  | _ => false

/-- The task type of an offloaded statement, if it is one. -/
def Stmt.offloadedTask : Stmt → Option TaskType
  | .offloaded _ t => some t
  | _ => none

/-- The interval fact `DiffRange`: the value equals `coeff * x + c` for the
tracked induction variable `x`, with the constant term bounded by the
half-open pair `(low, high)`.  The class itself is declared in a header
outside this pass; its four fields are those the spec's data model gives. -/
structure DiffRange where
  related : Bool
  coeff : Int
  low : Int
  high : Int
deriving DecidableEq, Repr

/-- Modelled from the spec: the `DiffRange(bool, int)` constructor (used
here only as `{false, 0}`).  For an unrelated fact the remaining fields are
meaningless and are zero by convention. -/
def DiffRange.mk2 (related : Bool) (coeff : Int) : DiffRange :=
  ⟨related, coeff, 0, 0⟩

/-- Modelled from the spec: the default constructor `DiffRange()` builds the
unrelated fact with all numeric fields zero by convention. -/
def DiffRange.mk0 : DiffRange :=
  DiffRange.mk2 false 0

/-- Modelled from the spec: the `DiffRange(bool, int, int)` constructor; a
single known constant value `low` is represented as the half-open singleton
range with `high = low + 1`. -/
def DiffRange.mk3 (related : Bool) (coeff : Int) (low : Int) : DiffRange :=
  ⟨related, coeff, low, low + 1⟩

/-- `operator+(const DiffRange &, const DiffRange &)` (value_diff.cpp:11). -/
def DiffRange.add (a b : DiffRange) : DiffRange :=
  ⟨a.related && b.related, a.coeff + b.coeff, a.low + b.low, a.high + b.high - 1⟩

/-- `operator-(const DiffRange &, const DiffRange &)` (value_diff.cpp:16). -/
def DiffRange.sub (a b : DiffRange) : DiffRange :=
  ⟨a.related && b.related, a.coeff - b.coeff, a.low - b.high + 1, a.high - b.low⟩

instance : Add DiffRange := ⟨DiffRange.add⟩

instance : Sub DiffRange := ⟨DiffRange.sub⟩

/-- The per-traversal `results` table: `std::map<int, DiffRange>` keyed by
`instance_id`, as an association list where writes prepend. -/
abbrev RMap := List (Nat × DiffRange)

/-- `results[k] = v`: record the fact for node `k`. -/
def rset (m : RMap) (k : Nat) (v : DiffRange) : RMap :=
  (k, v) :: m

/-- Read `results[k]`: the most recent binding, or the default-constructed
`DiffRange()` when the key is absent (as `std::map::operator[]` yields). -/
def rget (m : RMap) (k : Nat) : DiffRange :=
  match m with
  | [] => DiffRange.mk0
  | (k1, v) :: rest => if k1 = k then v else rget rest k

/-- `ValueDiffLoopIndex::visit`, all overloads, as one recursive function.
Arguments: the queried `loop` and `loop_index`, the statement being visited,
the current `lane`, and the incoming `results` table.  Returns the updated
table together with the trace of visited instance ids, or `none` if a fatal
assertion (or undefined out-of-bounds access) is reached. -/
def visitV (loop : Stmt) (loopIdx : Int) : Stmt → Nat → RMap → Option (RMap × List Nat)
  | .globalLoad i, _, m =>
      -- visit(GlobalLoadStmt *): results[id] = DiffRange()
      some (rset m i DiffRange.mk0, [i])
  | .loopIndex i l idx, _, m =>
      -- visit(LoopIndexStmt *): default to unrelated, then refine
      if l.id = loop.id ∧ idx = loopIdx then
        some (rset (rset m i DiffRange.mk0) i (DiffRange.mk3 true 1 0), [i])
      else
        match l with
        | .rangeFor _ (Stmt.const _ bvals) (Stmt.const _ evals) _ =>
            -- begin/end are ConstStmt: read val[0].val_int() of both
            (match bvals.head?, evals.head? with
             | some tb, some te =>
                 (match tb.val_int, te.val_int with
                  | some bv, some ev =>
                      some (rset (rset m i DiffRange.mk0) i ⟨true, 0, bv, ev⟩, [i])
                  | _, _ => none)
             | _, _ => none)
        | _ => some (rset m i DiffRange.mk0, [i])
  | .elementShuffle i src sIdx, lane, m =>
      -- visit(ElementShuffleStmt *): width asserted 1, lane rebound to the
      -- selected element's index for the recursive visit of its source
      if lane = 0 then
        match visitV loop loopIdx src sIdx m with
        | some (m1, t1) => some (rset m1 i (rget m1 src.id), i :: t1)
        | none => none
      else none
  | .const i vals, lane, m =>
      -- visit(ConstStmt *): val[lane], i32 only
      match vals[lane]? with
      | none => none
      | some tv =>
          if tv.dt = DataType.i32 then
            some (rset m i (DiffRange.mk3 true 0 tv.val), [i])
          else
            some (rset m i DiffRange.mk0, [i])
  | .rangeAssumption i b lo hi, lane, m =>
      -- visit(RangeAssumptionStmt *): base's fact + DiffRange(true, 0, low, high)
      match visitV loop loopIdx b lane m with
      | some (m1, t1) =>
          some (rset m1 i (DiffRange.add (rget m1 b.id) ⟨true, 0, lo, hi⟩), i :: t1)
      | none => none
  | .binaryOp i op l r, lane, m =>
      -- visit(BinaryOpStmt *)
      if op = BinOp.add ∨ op = BinOp.sub then
        match visitV loop loopIdx l lane m with
        | none => none
        | some (m1, t1) =>
            match visitV loop loopIdx r lane m1 with
            | none => none
            | some (m2, t2) =>
                if (rget m2 l.id).related && (rget m2 r.id).related then
                  some (rset m2 i
                          (if op = BinOp.add then
                             DiffRange.add (rget m2 l.id) (rget m2 r.id)
                           else
                             DiffRange.sub (rget m2 l.id) (rget m2 r.id)),
                        i :: (t1 ++ t2))
                else
                  some (rset m2 i (DiffRange.mk2 false 0), i :: (t1 ++ t2))
      else
        some (rset m i (DiffRange.mk2 false 0), [i])
  | s, _, m =>
      -- visit(Stmt *): the default visitor marks the node unrelated
      some (rset m s.id DiffRange.mk0, [s.id])

/-- `ValueDiffLoopIndex::run()`: visit the input statement starting from an
empty `results` table at lane 0 and read back its entry (the trace is kept
alongside). -/
def runLoopIndexVisitor (s loop : Stmt) (loopIdx : Int) : Option (DiffRange × List Nat) :=
  match visitV loop loopIdx s 0 [] with
  | some (m, t) => some (rget m s.id, t)
  | none => none

/-- The loop-kind precondition checked by `value_diff_loop_index`
(value_diff.cpp:163-167): `loop` is a `StructForStmt` or an `OffloadedStmt`,
and an `OffloadedStmt` must have task type `struct_for`. -/
def loopKindAssertOk (loop : Stmt) : Bool :=
  (loop.isStructFor || loop.isOffloaded) &&
  (!loop.isOffloaded || loop.offloadedTask = some TaskType.struct_for)

/-- The fast path of `value_diff_loop_index` (value_diff.cpp:168-172): the
queried statement is itself a `LoopIndexStmt` of exactly the queried loop
and induction index. -/
def loopIndexFastPathHit (stmt loop : Stmt) (index_id : Int) : Bool :=
  match stmt with
  | .loopIndex _ l idx => l.id = loop.id ∧ idx = index_id
  | _ => false

/-- `irpass::analysis::value_diff_loop_index` (value_diff.cpp:162-176).
`none` models a fatal assertion. -/
def value_diff_loop_index (stmt loop : Stmt) (index_id : Int) : Option DiffRange :=
  if !loopKindAssertOk loop then none
  else if loopIndexFastPathHit stmt loop index_id then some (DiffRange.mk3 true 1 0)
  else if stmt.width = 1 then (runLoopIndexVisitor stmt loop index_id).map Prod.fst
  else none

/-- The result of `FindDirectValueBaseAndOffset`: found flag, base node
(`none` is the null pointer), constant offset. -/
structure BaseOffset where
  found : Bool
  base : Option Nat
  offset : Int
deriving DecidableEq, Repr

/-- `FindDirectValueBaseAndOffset::visit`, all overloads, threading the
mutable `result` member.  `none` models a fatal assertion. -/
def fdVisit : Stmt → BaseOffset → Option BaseOffset
  | .const _ vals, r =>
      -- visit(ConstStmt *): TI_ASSERT(width == 1); i32 sets the result,
      -- any other type leaves it unchanged
      if vals.length = 1 then
        match vals.head? with
        | some tv =>
            if tv.dt = DataType.i32 then some ⟨true, none, tv.val⟩ else some r
        | none => none
      else none
  | .binaryOp _ op lhs rhs, r =>
      -- visit(BinaryOpStmt *): recurse into rhs only when it is a constant
      match (if rhs.isConst then fdVisit rhs r else some r) with
      | none => none
      | some r1 =>
          if r1.found = false ∨ r1.base ≠ none ∨ (op ≠ BinOp.add ∧ op ≠ BinOp.sub) then
            some ⟨false, none, 0⟩
          else
            some ⟨true, some lhs.id, if op = BinOp.sub then -r1.offset else r1.offset⟩
  | _, _ =>
      -- visit(Stmt *): the default visitor resets the result
      some ⟨false, none, 0⟩

/-- `FindDirectValueBaseAndOffset::run`: one fresh instance (result
initialized to `(false, nullptr, 0)`) visiting the value. -/
def fdRun (val : Stmt) : Option BaseOffset :=
  fdVisit val ⟨false, none, 0⟩

/-- `DiffPtrResult` (declared in a header outside this pass).  Modelled from
the spec: either a certain constant difference or uncertainty. -/
inductive DiffPtrResult where
  | certain (diff : Int)
  | uncertain
deriving DecidableEq, Repr

/-- `irpass::analysis::value_diff_ptr_index` (value_diff.cpp:178-189). -/
def value_diff_ptr_index (val1 val2 : Stmt) : Option DiffPtrResult :=
  if val1.id = val2.id then some (DiffPtrResult.certain 0)
  else
    match fdRun val1, fdRun val2 with
    | some v1, some v2 =>
        if v1.found = false ∨ v2.found = false ∨ v1.base ≠ v2.base then
          some DiffPtrResult.uncertain
        else
          some (DiffPtrResult.certain (v1.offset - v2.offset))
    | _, _ => none

/-! Helper lemmas about the results table. -/

theorem rget_rset_self (m : RMap) (k : Nat) (v : DiffRange) : rget (rset m k v) k = v := by
  simp [rget, rset]

theorem rget_append_of_mem (d m : RMap) (k : Nat) (h : k ∈ d.map Prod.fst) :
    rget (d ++ m) k = rget d k := by
  induction d with
  | nil => simp at h
  | cons p rest ih =>
      by_cases hk : p.1 = k
      · simp [rget, hk]
      · have hm : k ∈ rest.map Prod.fst := by
          rcases List.mem_map.mp h with ⟨q, hq, hq1⟩
          rcases List.mem_cons.mp hq with hq2 | hq2
          · exact absurd (hq2 ▸ hq1) hk
          · exact List.mem_map.mpr ⟨q, hq2, hq1⟩
        cases p with
        | mk k1 v => simp only [List.cons_append, rget, hk, if_neg hk] at *
                     exact ih hm

/-- C4: for all DiffRange facts `a` and `b`, `a + b` has
`related = related(a) && related(b)`, `coeff = coeff(a) + coeff(b)`,
`low = low(a) + low(b)`, `high = high(a) + high(b) - 1`, and `a - b` has
`coeff = coeff(a) - coeff(b)`, `low = low(a) - high(b) + 1`,
`high = high(a) - low(b)`; consequently for related `a`, `b`,
`(a+b).low + (a+b).high = a.low + a.high + (b.low + b.high) - 1`. -/
theorem c4_diffrange_add_sub :
    ∀ a b : DiffRange,
      (a + b).related = (a.related && b.related) ∧
      (a + b).coeff = a.coeff + b.coeff ∧
      (a + b).low = a.low + b.low ∧
      (a + b).high = a.high + b.high - 1 ∧
      (a - b).related = (a.related && b.related) ∧
      (a - b).coeff = a.coeff - b.coeff ∧
      (a - b).low = a.low - b.high + 1 ∧
      (a - b).high = a.high - b.low ∧
      (a.related = true → b.related = true →
        (a + b).low + (a + b).high = a.low + a.high + (b.low + b.high) - 1) := by
  intro a b
  refine ⟨rfl, rfl, rfl, rfl, rfl, rfl, rfl, rfl, ?_⟩
  intro _ _
  show a.low + b.low + (a.high + b.high - 1) = _
  ring

/-- C4 witness: the composition law evaluated at two concrete related facts. -/
theorem c4_witness :
    ((⟨true, 1, 0, 5⟩ : DiffRange) + ⟨true, 0, 2, 4⟩).low +
      ((⟨true, 1, 0, 5⟩ : DiffRange) + ⟨true, 0, 2, 4⟩).high =
    (⟨true, 1, 0, 5⟩ : DiffRange).low + (⟨true, 1, 0, 5⟩ : DiffRange).high +
      ((⟨true, 0, 2, 4⟩ : DiffRange).low + (⟨true, 0, 2, 4⟩ : DiffRange).high) - 1 :=
  (c4_diffrange_add_sub ⟨true, 1, 0, 5⟩ ⟨true, 0, 2, 4⟩).2.2.2.2.2.2.2.2 rfl rfl

/-- C8: for every node `v`, `value_diff_ptr_index(v, v)` is `Certain(0)` by
the identity fast path, with no decomposition performed (the result needs no
hypothesis about `v` decomposing at all). -/
theorem c8_ptr_index_identity :
    ∀ v : Stmt, value_diff_ptr_index v v = some (DiffPtrResult.certain 0) := by
  intro v
  simp [value_diff_ptr_index]

/-- C5 counterexample: a 64-bit integer constant node is an integer constant,
yet its decomposition yields `found = false` (and not the claimed
`(true, null, 7)`). -/
theorem c5_counterexample :
    fdRun (Stmt.const 3 [⟨DataType.i64, 7⟩]) = some ⟨false, none, 0⟩ ∧
    fdRun (Stmt.const 3 [⟨DataType.i64, 7⟩]) ≠ some ⟨true, none, 7⟩ := by
  constructor
  · rfl
  · decide

/-- C5 amended: for every single-lane 32-bit signed integer constant node
`const(c)`, `decompose(const(c))` returns `(found = true, base = null,
offset = c)`; a single-lane integer constant of another integer type (64-bit)
yields `found = false`. -/
theorem c5_decompose_const :
    ∀ (i : Nat) (c : Int),
      fdRun (Stmt.const i [⟨DataType.i32, c⟩]) = some ⟨true, none, c⟩ ∧
      fdRun (Stmt.const i [⟨DataType.i64, c⟩]) = some ⟨false, none, 0⟩ := by
  intro i c
  exact ⟨rfl, rfl⟩

/-- C1 counterexample: a range-bounded parallel-for (`RangeForStmt`, even
with constant bounds) fails the loop-kind assertion of
`value_diff_loop_index`, as does a dispatch wrapper of task type range-for;
the call fatally asserts instead of succeeding. -/
theorem c1_counterexample :
    loopKindAssertOk
      (Stmt.rangeFor 10 (Stmt.const 11 [⟨DataType.i32, 0⟩])
        (Stmt.const 12 [⟨DataType.i32, 8⟩]) false) = false ∧
    loopKindAssertOk (Stmt.offloaded 13 TaskType.range_for) = false ∧
    value_diff_loop_index (Stmt.const 14 [⟨DataType.i32, 3⟩])
      (Stmt.rangeFor 10 (Stmt.const 11 [⟨DataType.i32, 0⟩])
        (Stmt.const 12 [⟨DataType.i32, 8⟩]) false) 0 = none := by
  refine ⟨rfl, ?_, rfl⟩
  decide

/-- C1 amended: the loop-kind assertion of `value_diff_loop_index` succeeds
exactly when `loop` is a structured parallel-for or a dispatch wrapper whose
task type is structured-for; every other loop kind (range-bounded
parallel-for included) makes the call fatally assert. -/
theorem c1_loop_kind_assert :
    ∀ loop : Stmt,
      (loopKindAssertOk loop = true ↔
        ((∃ i, loop = Stmt.structFor i) ∨
         (∃ i, loop = Stmt.offloaded i TaskType.struct_for))) ∧
      (loopKindAssertOk loop = false →
        ∀ (s : Stmt) (idx : Int), value_diff_loop_index s loop idx = none) := by
  intro loop
  constructor
  · constructor
    · intro h
      cases loop with
      | structFor i => exact Or.inl ⟨i, rfl⟩
      | offloaded i t =>
          cases t with
          | struct_for => exact Or.inr ⟨i, rfl⟩
          | serial => simp [loopKindAssertOk, Stmt.isStructFor, Stmt.isOffloaded,
                            Stmt.offloadedTask] at h
          | range_for => simp [loopKindAssertOk, Stmt.isStructFor, Stmt.isOffloaded,
                               Stmt.offloadedTask] at h
          | otherTask => simp [loopKindAssertOk, Stmt.isStructFor, Stmt.isOffloaded,
                               Stmt.offloadedTask] at h
      | const i vals => simp [loopKindAssertOk, Stmt.isStructFor, Stmt.isOffloaded] at h
      | loopIndex i l idx => simp [loopKindAssertOk, Stmt.isStructFor, Stmt.isOffloaded] at h
      | globalLoad i => simp [loopKindAssertOk, Stmt.isStructFor, Stmt.isOffloaded] at h
      | elementShuffle i s k => simp [loopKindAssertOk, Stmt.isStructFor, Stmt.isOffloaded] at h
      | rangeAssumption i b lo hi =>
          simp [loopKindAssertOk, Stmt.isStructFor, Stmt.isOffloaded] at h
      | binaryOp i op l r => simp [loopKindAssertOk, Stmt.isStructFor, Stmt.isOffloaded] at h
      | rangeFor i b e rev => simp [loopKindAssertOk, Stmt.isStructFor, Stmt.isOffloaded] at h
      | otherStmt i => simp [loopKindAssertOk, Stmt.isStructFor, Stmt.isOffloaded] at h
    · intro h
      rcases h with ⟨i, rfl⟩ | ⟨i, rfl⟩
      · rfl
      · rfl
  · intro h s idx
    simp [value_diff_loop_index, h]

/-- C1 witness: the amended theorem applied to a loop of an unsupported
kind. -/
theorem c1_witness :
    value_diff_loop_index (Stmt.const 14 [⟨DataType.i32, 3⟩]) (Stmt.otherStmt 5) 0 = none :=
  (c1_loop_kind_assert (Stmt.otherStmt 5)).2 rfl (Stmt.const 14 [⟨DataType.i32, 3⟩]) 0

/-- C10: for any two distinct 32-bit integer constant nodes with values `c1`
and `c2`, `value_diff_ptr_index` reports the certain difference `c1 - c2`:
both decompose to a null base, the two null bases compare equal, and the
constant delta is reported although the nodes share no symbolic base node. -/
theorem c10_const_const_diff :
    ∀ (i1 i2 : Nat) (c1 c2 : Int),
      i1 ≠ i2 →
      value_diff_ptr_index (Stmt.const i1 [⟨DataType.i32, c1⟩])
          (Stmt.const i2 [⟨DataType.i32, c2⟩]) =
        some (DiffPtrResult.certain (c1 - c2)) := by
  intro i1 i2 c1 c2 hne
  have h1 : fdRun (Stmt.const i1 [⟨DataType.i32, c1⟩]) = some ⟨true, none, c1⟩ := rfl
  have h2 : fdRun (Stmt.const i2 [⟨DataType.i32, c2⟩]) = some ⟨true, none, c2⟩ := rfl
  unfold value_diff_ptr_index
  rw [h1, h2]
  have hid : (Stmt.const i1 [⟨DataType.i32, c1⟩]).id ≠ (Stmt.const i2 [⟨DataType.i32, c2⟩]).id := by
    simpa [Stmt.id] using hne
  rw [if_neg hid]
  simp

/-- C10 witness: two concrete distinct constant nodes. -/
theorem c10_witness :
    value_diff_ptr_index (Stmt.const 30 [⟨DataType.i32, 12⟩])
        (Stmt.const 31 [⟨DataType.i32, 5⟩]) =
      some (DiffPtrResult.certain (12 - 5)) :=
  c10_const_const_diff 30 31 12 5 (by decide)

/-- C2: for distinct input nodes whose decomposition runs complete,
`value_diff_ptr_index` returns `Uncertain` exactly when the decomposition of
either input fails or the two decomposed bases differ in node identity, and
otherwise returns `Certain(offset1 - offset2)`. -/
theorem c2_ptr_diff_cases :
    ∀ (v1 v2 : Stmt) (r1 r2 : BaseOffset),
      v1.id ≠ v2.id →
      fdRun v1 = some r1 →
      fdRun v2 = some r2 →
      (value_diff_ptr_index v1 v2 = some DiffPtrResult.uncertain ↔
        (r1.found = false ∨ r2.found = false ∨ r1.base ≠ r2.base)) ∧
      (¬(r1.found = false ∨ r2.found = false ∨ r1.base ≠ r2.base) →
        value_diff_ptr_index v1 v2 = some (DiffPtrResult.certain (r1.offset - r2.offset))) := by
  intro v1 v2 r1 r2 hne h1 h2
  have hmain : value_diff_ptr_index v1 v2 =
      if r1.found = false ∨ r2.found = false ∨ r1.base ≠ r2.base then
        some DiffPtrResult.uncertain
      else
        some (DiffPtrResult.certain (r1.offset - r2.offset)) := by
    unfold value_diff_ptr_index
    rw [h1, h2, if_neg hne]
  constructor
  · rw [hmain]
    by_cases hg : r1.found = false ∨ r2.found = false ∨ r1.base ≠ r2.base
    · simp [hg]
    · simp [if_neg hg, hg]
  · intro hg
    rw [hmain, if_neg hg]

/-- C2 witness: two concrete distinct constant nodes, both decomposing to a
null base, giving the certain difference. -/
theorem c2_witness :
    value_diff_ptr_index (Stmt.const 21 [⟨DataType.i32, 9⟩])
        (Stmt.const 22 [⟨DataType.i32, 4⟩]) =
      some (DiffPtrResult.certain ((9 : Int) - 4)) :=
  (c2_ptr_diff_cases (Stmt.const 21 [⟨DataType.i32, 9⟩]) (Stmt.const 22 [⟨DataType.i32, 4⟩])
      ⟨true, none, 9⟩ ⟨true, none, 4⟩ (by decide) rfl rfl).2 (by decide)

/-- C6: in the loop-relative visitor, an integer constant node whose lane
value has 32-bit signed integer type and value `c` yields `related = true,
coeff = 0` and the exact singleton encoded as the half-open range
`low = c, high = c + 1`; a constant lane of any other numeric type yields
the unrelated fact. -/
theorem c6_visit_const :
    ∀ (loop : Stmt) (li : Int) (i : Nat) (vals : List TypedVal) (lane : Nat)
      (m : RMap) (tv : TypedVal),
      vals[lane]? = some tv →
      (tv.dt = DataType.i32 →
        visitV loop li (Stmt.const i vals) lane m =
          some (rset m i ⟨true, 0, tv.val, tv.val + 1⟩, [i])) ∧
      (tv.dt ≠ DataType.i32 →
        visitV loop li (Stmt.const i vals) lane m =
          some (rset m i ⟨false, 0, 0, 0⟩, [i])) := by
  intro loop li i vals lane m tv hv
  constructor
  · intro hdt
    unfold visitV
    rw [hv]
    simp [hdt, DiffRange.mk3]
  · intro hdt
    unfold visitV
    rw [hv]
    simp [hdt, DiffRange.mk0, DiffRange.mk2]

/-- C6 witness: a concrete 32-bit constant 5 produces the singleton fact
`(true, 0, 5, 6)`. -/
theorem c6_witness :
    visitV (Stmt.structFor 7) 0 (Stmt.const 1 [⟨DataType.i32, 5⟩]) 0 [] =
      some (rset [] 1 ⟨true, 0, 5, 5 + 1⟩, [1]) :=
  (c6_visit_const (Stmt.structFor 7) 0 1 [⟨DataType.i32, 5⟩] 0 [] ⟨DataType.i32, 5⟩ rfl).1 rfl

/-- Whether a statement is a range-for whose begin and end operands are both
constant statements (the shape the loop-index visitor reads bounds from). -/
def isConstBoundedRangeFor : Stmt → Bool
  | .rangeFor _ b e _ => b.isConst && e.isConst
  | _ => false

/-- C7: when the loop-relative visitor visits an induction-variable
reference: (a) a reference to exactly the queried `(loop, induction_index)`
yields `related = true, coeff = 1, low = 0`; (b) a reference to an induction
variable of a different loop that is a range-loop whose begin and end bounds
are compile-time integer constants `L` and `H` yields
`related = true, coeff = 0, low = L, high = H`; (c) any other loop-index
reference yields the unrelated fact. -/
theorem c7_visit_loop_index :
    ∀ (loop : Stmt) (li : Int) (i : Nat) (l : Stmt) (idx : Int) (lane : Nat) (m : RMap),
      ((l.id = loop.id ∧ idx = li) →
        ∃ m' t, visitV loop li (Stmt.loopIndex i l idx) lane m = some (m', t) ∧
          (rget m' i).related = true ∧ (rget m' i).coeff = 1 ∧ (rget m' i).low = 0) ∧
      (∀ (li2 bi ei : Nat) (bvals evals : List TypedVal) (rev : Bool)
         (tb te : TypedVal) (bv ev : Int),
        l = Stmt.rangeFor li2 (Stmt.const bi bvals) (Stmt.const ei evals) rev →
        l.id ≠ loop.id →
        bvals.head? = some tb →
        evals.head? = some te →
        tb.val_int = some bv →
        te.val_int = some ev →
        ∃ m' t, visitV loop li (Stmt.loopIndex i l idx) lane m = some (m', t) ∧
          (rget m' i).related = true ∧ (rget m' i).coeff = 0 ∧
          (rget m' i).low = bv ∧ (rget m' i).high = ev) ∧
      (¬(l.id = loop.id ∧ idx = li) →
        isConstBoundedRangeFor l = false →
        ∃ m' t, visitV loop li (Stmt.loopIndex i l idx) lane m = some (m', t) ∧
          (rget m' i).related = false ∧ (rget m' i).coeff = 0) := by
  intro loop li i l idx lane m
  refine ⟨?_, ?_, ?_⟩
  · intro hmatch
    refine ⟨rset (rset m i DiffRange.mk0) i (DiffRange.mk3 true 1 0), [i], ?_, ?_⟩
    · unfold visitV
      rw [if_pos hmatch]
    · rw [rget_rset_self]
      exact ⟨rfl, rfl, rfl⟩
  · intro li2 bi ei bvals evals rev tb te bv ev hl hne hb he hbv hev
    subst hl
    refine ⟨rset (rset m i DiffRange.mk0) i ⟨true, 0, bv, ev⟩, [i], ?_, ?_⟩
    · unfold visitV
      rw [if_neg (fun hcontr => hne hcontr.1)]
      show (match bvals.head?, evals.head? with
            | some tb1, some te1 =>
                (match tb1.val_int, te1.val_int with
                 | some bv1, some ev1 =>
                     some (rset (rset m i DiffRange.mk0) i ⟨true, 0, bv1, ev1⟩, [i])
                 | _, _ => none)
            | _, _ => none) = _
      rw [hb, he]
      show (match tb.val_int, te.val_int with
            | some bv1, some ev1 =>
                some (rset (rset m i DiffRange.mk0) i ⟨true, 0, bv1, ev1⟩, [i])
            | _, _ => none) = _
      rw [hbv, hev]
    · rw [rget_rset_self]
      exact ⟨rfl, rfl, rfl, rfl⟩
  · intro hmatch hrf
    refine ⟨rset m i DiffRange.mk0, [i], ?_, ?_⟩
    · unfold visitV
      rw [if_neg hmatch]
      cases l with
      | const a b => rfl
      | loopIndex a b c => rfl
      | globalLoad a => rfl
      | elementShuffle a b c => rfl
      | rangeAssumption a b c d => rfl
      | binaryOp a b c d => rfl
      | structFor a => rfl
      | offloaded a b => rfl
      | otherStmt a => rfl
      | rangeFor li2 b e rev =>
          cases b with
          | const bi bvals =>
              cases e with
              | const ei evals =>
                  exfalso
                  simp [isConstBoundedRangeFor, Stmt.isConst] at hrf
              | loopIndex a b c => rfl
              | globalLoad a => rfl
              | elementShuffle a b c => rfl
              | rangeAssumption a b c d => rfl
              | binaryOp a b c d => rfl
              | structFor a => rfl
              | offloaded a b => rfl
              | otherStmt a => rfl
              | rangeFor a b c d => rfl
          | loopIndex a b c => rfl
          | globalLoad a => rfl
          | elementShuffle a b c => rfl
          | rangeAssumption a b c d => rfl
          | binaryOp a b c d => rfl
          | structFor a => rfl
          | offloaded a b => rfl
          | otherStmt a => rfl
          | rangeFor a b c d => rfl
    · rw [rget_rset_self]
      exact ⟨rfl, rfl⟩

/-- C7 witness: a reference to a different loop's induction variable, that
loop being a range-for with constant bounds `[4, 9)`, yields the fact
`(true, 0, 4, 9)`. -/
theorem c7_witness :
    ∃ m' t,
      visitV (Stmt.structFor 7) 0
          (Stmt.loopIndex 1
            (Stmt.rangeFor 2 (Stmt.const 3 [⟨DataType.i32, 4⟩])
              (Stmt.const 5 [⟨DataType.i64, 9⟩]) false) 0) 0 [] =
        some (m', t) ∧
      (rget m' 1).related = true ∧ (rget m' 1).coeff = 0 ∧
      (rget m' 1).low = 4 ∧ (rget m' 1).high = 9 :=
  (c7_visit_loop_index (Stmt.structFor 7) 0 1
      (Stmt.rangeFor 2 (Stmt.const 3 [⟨DataType.i32, 4⟩])
        (Stmt.const 5 [⟨DataType.i64, 9⟩]) false) 0 0 []).2.1
    2 3 5 [⟨DataType.i32, 4⟩] [⟨DataType.i64, 9⟩] false
    ⟨DataType.i32, 4⟩ ⟨DataType.i64, 9⟩ 4 9 rfl (by decide) rfl rfl rfl rfl

/-- C3: in the loop-relative visitor, for a binary-operation node: an
operator other than add/subtract yields the unrelated fact
(`related = false, coeff = 0`); with add/subtract, if either operand's fact
is unrelated the node's fact is unconditionally unrelated — no partial
information flows even when the other operand's fact is fully related; if
both operand facts are related, the node's fact is their composition via
`+` (respectively `-`). -/
theorem c3_binary_op :
    ∀ (loop : Stmt) (li : Int) (i : Nat) (op : BinOp) (l r : Stmt) (lane : Nat) (m : RMap),
      ((op ≠ BinOp.add ∧ op ≠ BinOp.sub) →
        ∃ m' t, visitV loop li (Stmt.binaryOp i op l r) lane m = some (m', t) ∧
          (rget m' i).related = false ∧ (rget m' i).coeff = 0) ∧
      (∀ (m1 : RMap) (t1 : List Nat) (m2 : RMap) (t2 : List Nat),
        (op = BinOp.add ∨ op = BinOp.sub) →
        visitV loop li l lane m = some (m1, t1) →
        visitV loop li r lane m1 = some (m2, t2) →
        (((rget m2 l.id).related && (rget m2 r.id).related) = false →
          ∃ m' t, visitV loop li (Stmt.binaryOp i op l r) lane m = some (m', t) ∧
            (rget m' i).related = false ∧ (rget m' i).coeff = 0) ∧
        ((rget m2 l.id).related = true → (rget m2 r.id).related = true →
          ∃ m' t, visitV loop li (Stmt.binaryOp i op l r) lane m = some (m', t) ∧
            rget m' i = (if op = BinOp.add then
                           DiffRange.add (rget m2 l.id) (rget m2 r.id)
                         else
                           DiffRange.sub (rget m2 l.id) (rget m2 r.id)))) := by
  intro loop li i op l r lane m
  constructor
  · rintro ⟨ha, hs⟩
    refine ⟨rset m i (DiffRange.mk2 false 0), [i], ?_, ?_⟩
    · unfold visitV
      rw [if_neg (by rintro (h | h) <;> [exact ha h; exact hs h])]
    · rw [rget_rset_self]
      exact ⟨rfl, rfl⟩
  · intro m1 t1 m2 t2 hop h1 h2
    have hv : visitV loop li (Stmt.binaryOp i op l r) lane m =
        if (rget m2 l.id).related && (rget m2 r.id).related then
          some (rset m2 i
                  (if op = BinOp.add then
                     DiffRange.add (rget m2 l.id) (rget m2 r.id)
                   else
                     DiffRange.sub (rget m2 l.id) (rget m2 r.id)),
                i :: (t1 ++ t2))
        else
          some (rset m2 i (DiffRange.mk2 false 0), i :: (t1 ++ t2)) := by
      unfold visitV
      rw [if_pos hop, h1]
      show (match visitV loop li r lane m1 with
            | none => none
            | some (m2, t2) =>
                if (rget m2 l.id).related && (rget m2 r.id).related then
                  some (rset m2 i
                          (if op = BinOp.add then
                             DiffRange.add (rget m2 l.id) (rget m2 r.id)
                           else
                             DiffRange.sub (rget m2 l.id) (rget m2 r.id)),
                        i :: (t1 ++ t2))
                else
                  some (rset m2 i (DiffRange.mk2 false 0), i :: (t1 ++ t2))) = _
      rw [h2]
    constructor
    · intro hrel
      refine ⟨rset m2 i (DiffRange.mk2 false 0), i :: (t1 ++ t2), ?_, ?_⟩
      · rw [hv, if_neg (by simp [hrel])]
      · rw [rget_rset_self]
        exact ⟨rfl, rfl⟩
    · intro hl hr
      refine ⟨rset m2 i
                (if op = BinOp.add then
                   DiffRange.add (rget m2 l.id) (rget m2 r.id)
                 else
                   DiffRange.sub (rget m2 l.id) (rget m2 r.id)),
              i :: (t1 ++ t2), ?_, ?_⟩
      · rw [hv, if_pos (by simp [hl, hr])]
      · rw [rget_rset_self]

/-- C3 witness: the mixed scenario — an opaque load plus the tracked
induction variable yields the unrelated fact even though one operand's fact
is fully related. -/
theorem c3_witness :
    ∃ m' t,
      visitV (Stmt.structFor 7) 0
          (Stmt.binaryOp 3 BinOp.add (Stmt.globalLoad 1)
            (Stmt.loopIndex 2 (Stmt.structFor 7) 0)) 0 [] =
        some (m', t) ∧
      (rget m' 3).related = false ∧ (rget m' 3).coeff = 0 :=
  ((c3_binary_op (Stmt.structFor 7) 0 3 BinOp.add (Stmt.globalLoad 1)
        (Stmt.loopIndex 2 (Stmt.structFor 7) 0) 0 []).2
      [(1, DiffRange.mk0)] [1]
      [(2, DiffRange.mk3 true 1 0), (2, DiffRange.mk0), (1, DiffRange.mk0)] [2]
      (Or.inl rfl) (by decide) (by decide)).1 (by decide)

/-- The refinement the loop-index visitor derives from the referenced node's
defining loop: `none` models a fatal failure while reading the constant
bounds, `some none` means no constant-bounded range-for applies (the default
unrelated fact stands), and `some (some f)` is the derived bounds fact. -/
def rangeForBoundsFact : Stmt → Option (Option DiffRange)
  | .rangeFor _ (Stmt.const _ bvals) (Stmt.const _ evals) _ =>
      (match bvals.head?, evals.head? with
       | some tb, some te =>
           (match tb.val_int, te.val_int with
            | some bv, some ev => some (some ⟨true, 0, bv, ev⟩)
            | _, _ => none)
       | _, _ => none)
  | _ => some none

theorem visitV_loopIndex_else (loop : Stmt) (li : Int) (i : Nat) (l : Stmt) (idx : Int)
    (lane : Nat) (m : RMap) (hne : ¬(l.id = loop.id ∧ idx = li)) :
    visitV loop li (Stmt.loopIndex i l idx) lane m =
      match rangeForBoundsFact l with
      | none => none
      | some none => some (rset m i DiffRange.mk0, [i])
      | some (some f) => some (rset (rset m i DiffRange.mk0) i f, [i]) := by
  unfold visitV
  rw [if_neg hne]
  cases l <;> try rfl
  case rangeFor li2 b e rev =>
    cases b <;> try rfl
    case const bi bvals =>
      cases e <;> try rfl
      case const ei evals =>
        rcases hb : bvals.head? with _ | tb
        · simp [rangeForBoundsFact, hb]
        · rcases he : evals.head? with _ | te
          · simp [rangeForBoundsFact, hb, he]
          · rcases hbv : tb.val_int with _ | bv
            · simp [rangeForBoundsFact, hb, he, hbv]
            · rcases hev : te.val_int with _ | ev
              · simp [rangeForBoundsFact, hb, he, hbv, hev]
              · simp [rangeForBoundsFact, hb, he, hbv, hev]

/-- C9 counterexample: a query over the expression `c + c` where both
operands are the same constant node (instance id 1, a DAG-shared
subexpression) executes the visit of node 1 twice — the trace of visited
ids is `[2, 1, 1]` — contradicting "no node's visit is executed a second
time within a single query". -/
theorem c9_counterexample :
    (visitV (Stmt.structFor 7) 0
        (Stmt.binaryOp 2 BinOp.add (Stmt.const 1 [⟨DataType.i32, 5⟩])
          (Stmt.const 1 [⟨DataType.i32, 5⟩])) 0 []).map
        (fun pr => (pr.2.count 1, pr.2)) = some (2, [2, 1, 1]) := by
  decide

/-- C9 amended: the per-traversal table records each visited node's fact
keyed by node identity, but visits are not guarded by it.  For every
statement and lane, either the traversal always fatally asserts, or there
are a fixed block of written bindings `d` (containing the node's own id) and
a fixed visit trace `t` such that, from every incoming table `m`, the
traversal produces exactly `d ++ m` and trace `t`: the visits executed are
completely independent of the table's prior contents, so a node reachable
through several operand references is visited once per reference, not
once per query. -/
theorem c9_no_memo_guard :
    ∀ (loop : Stmt) (li : Int) (s : Stmt) (lane : Nat),
      (∀ m : RMap, visitV loop li s lane m = none) ∨
      (∃ (d : RMap) (t : List Nat), s.id ∈ d.map Prod.fst ∧
        ∀ m : RMap, visitV loop li s lane m = some (d ++ m, t)) := by
  intro loop li s
  induction s with
  | const i vals =>
      intro lane
      rcases hv : vals[lane]? with _ | tv
      · left
        intro m
        unfold visitV
        rw [hv]
      · right
        by_cases hdt : tv.dt = DataType.i32
        · refine ⟨[(i, DiffRange.mk3 true 0 tv.val)], [i], by simp [Stmt.id], fun m => ?_⟩
          unfold visitV
          rw [hv]
          simp [hdt, rset]
        · refine ⟨[(i, DiffRange.mk0)], [i], by simp [Stmt.id], fun m => ?_⟩
          unfold visitV
          rw [hv]
          simp [hdt, rset]
  | loopIndex i l idx ih =>
      intro lane
      by_cases hc : l.id = loop.id ∧ idx = li
      · right
        refine ⟨[(i, DiffRange.mk3 true 1 0), (i, DiffRange.mk0)], [i], by simp [Stmt.id], fun m => ?_⟩
        unfold visitV
        rw [if_pos hc]
        rfl
      · rcases hrf : rangeForBoundsFact l with _ | f
        · left
          intro m
          rw [visitV_loopIndex_else loop li i l idx lane m hc, hrf]
        · rcases f with _ | f0
          · right
            refine ⟨[(i, DiffRange.mk0)], [i], by simp [Stmt.id], fun m => ?_⟩
            rw [visitV_loopIndex_else loop li i l idx lane m hc, hrf]
            rfl
          · right
            refine ⟨[(i, f0), (i, DiffRange.mk0)], [i], by simp [Stmt.id], fun m => ?_⟩
            rw [visitV_loopIndex_else loop li i l idx lane m hc, hrf]
            rfl
  | globalLoad i =>
      intro lane
      right
      exact ⟨[(i, DiffRange.mk0)], [i], by simp [Stmt.id], fun m => rfl⟩
  | elementShuffle i src sIdx ih =>
      intro lane
      by_cases hlane : lane = 0
      · subst hlane
        rcases ih sIdx with hnone | ⟨d, t, hmem, hall⟩
        · left
          intro m
          show (match visitV loop li src sIdx m with
                | some (m1, t1) => some (rset m1 i (rget m1 src.id), i :: t1)
                | none => none) = none
          rw [hnone m]
        · right
          refine ⟨(i, rget d src.id) :: d, i :: t, by simp [Stmt.id], fun m => ?_⟩
          show (match visitV loop li src sIdx m with
                | some (m1, t1) => some (rset m1 i (rget m1 src.id), i :: t1)
                | none => none) = some (((i, rget d src.id) :: d) ++ m, i :: t)
          rw [hall m]
          show some (rset (d ++ m) i (rget (d ++ m) src.id), i :: t) = _
          rw [rget_append_of_mem d m src.id hmem]
          rfl
      · left
        intro m
        unfold visitV
        rw [if_neg hlane]
  | rangeAssumption i b lo hi ih =>
      intro lane
      rcases ih lane with hnone | ⟨d, t, hmem, hall⟩
      · left
        intro m
        unfold visitV
        rw [hnone m]
      · right
        refine ⟨(i, DiffRange.add (rget d b.id) ⟨true, 0, lo, hi⟩) :: d, i :: t,
                by simp [Stmt.id], fun m => ?_⟩
        unfold visitV
        rw [hall m]
        show some (rset (d ++ m) i (DiffRange.add (rget (d ++ m) b.id) ⟨true, 0, lo, hi⟩),
                   i :: t) = _
        rw [rget_append_of_mem d m b.id hmem]
        rfl
  | binaryOp i op l r ihl ihr =>
      intro lane
      by_cases hop : op = BinOp.add ∨ op = BinOp.sub
      · rcases ihl lane with hlnone | ⟨dl, tl, hlmem, hlall⟩
        · left
          intro m
          unfold visitV
          rw [if_pos hop, hlnone m]
        · rcases ihr lane with hrnone | ⟨dr, tr, hrmem, hrall⟩
          · left
            intro m
            unfold visitV
            rw [if_pos hop, hlall m]
            show (match visitV loop li r lane (dl ++ m) with
                  | none => none
                  | some (m2, t2) =>
                      if (rget m2 l.id).related && (rget m2 r.id).related then
                        some (rset m2 i
                                (if op = BinOp.add then
                                   DiffRange.add (rget m2 l.id) (rget m2 r.id)
                                 else
                                   DiffRange.sub (rget m2 l.id) (rget m2 r.id)),
                              i :: (tl ++ t2))
                      else
                        some (rset m2 i (DiffRange.mk2 false 0), i :: (tl ++ t2))) = none
            rw [hrnone (dl ++ m)]
          · right
            have hkeyl : l.id ∈ (dr ++ dl).map Prod.fst := by
              rw [List.map_append]
              exact List.mem_append_right _ hlmem
            have hkeyr : r.id ∈ (dr ++ dl).map Prod.fst := by
              rw [List.map_append]
              exact List.mem_append_left _ hrmem
            refine ⟨(i, if (rget (dr ++ dl) l.id).related && (rget (dr ++ dl) r.id).related then
                          (if op = BinOp.add then
                             DiffRange.add (rget (dr ++ dl) l.id) (rget (dr ++ dl) r.id)
                           else
                             DiffRange.sub (rget (dr ++ dl) l.id) (rget (dr ++ dl) r.id))
                        else DiffRange.mk2 false 0) :: (dr ++ dl),
                    i :: (tl ++ tr), by simp [Stmt.id], fun m => ?_⟩
            unfold visitV
            rw [if_pos hop, hlall m]
            show (match visitV loop li r lane (dl ++ m) with
                  | none => none
                  | some (m2, t2) =>
                      if (rget m2 l.id).related && (rget m2 r.id).related then
                        some (rset m2 i
                                (if op = BinOp.add then
                                   DiffRange.add (rget m2 l.id) (rget m2 r.id)
                                 else
                                   DiffRange.sub (rget m2 l.id) (rget m2 r.id)),
                              i :: (tl ++ t2))
                      else
                        some (rset m2 i (DiffRange.mk2 false 0), i :: (tl ++ t2))) = _
            rw [hrall (dl ++ m)]
            have e1 : rget (dr ++ (dl ++ m)) l.id = rget (dr ++ dl) l.id := by
              rw [← List.append_assoc]
              exact rget_append_of_mem (dr ++ dl) m l.id hkeyl
            have e2 : rget (dr ++ (dl ++ m)) r.id = rget (dr ++ dl) r.id := by
              rw [← List.append_assoc]
              exact rget_append_of_mem (dr ++ dl) m r.id hkeyr
            show (if (rget (dr ++ (dl ++ m)) l.id).related &&
                     (rget (dr ++ (dl ++ m)) r.id).related then
                    some (rset (dr ++ (dl ++ m)) i
                            (if op = BinOp.add then
                               DiffRange.add (rget (dr ++ (dl ++ m)) l.id)
                                 (rget (dr ++ (dl ++ m)) r.id)
                             else
                               DiffRange.sub (rget (dr ++ (dl ++ m)) l.id)
                                 (rget (dr ++ (dl ++ m)) r.id)),
                          i :: (tl ++ tr))
                  else
                    some (rset (dr ++ (dl ++ m)) i (DiffRange.mk2 false 0),
                          i :: (tl ++ tr))) = _
            rw [e1, e2]
            by_cases hre : (rget (dr ++ dl) l.id).related && (rget (dr ++ dl) r.id).related
            · rw [if_pos hre, if_pos hre]
              simp [rset, List.append_assoc]
            · rw [if_neg hre, if_neg hre]
              simp [rset, List.append_assoc]
      · right
        refine ⟨[(i, DiffRange.mk2 false 0)], [i], by simp [Stmt.id], fun m => ?_⟩
        unfold visitV
        rw [if_neg hop]
        rfl
  | rangeFor i b e rev ihb ihe =>
      intro lane
      right
      exact ⟨[(i, DiffRange.mk0)], [i], by simp [Stmt.id], fun m => rfl⟩
  | structFor i =>
      intro lane
      right
      exact ⟨[(i, DiffRange.mk0)], [i], by simp [Stmt.id], fun m => rfl⟩
  | offloaded i task =>
      intro lane
      right
      exact ⟨[(i, DiffRange.mk0)], [i], by simp [Stmt.id], fun m => rfl⟩
  | otherStmt i =>
      intro lane
      right
      exact ⟨[(i, DiffRange.mk0)], [i], by simp [Stmt.id], fun m => rfl⟩
